import Mathlib

/-!
# Verification of the inventory normalization & pricing pipeline

Shallow embedding of `src/scripts/final_file.py` (the core transform of the
`instacart_reinv` repository).  Strings are modelled as Lean `String`
(ASCII fragment); pandas-missing values (`NaN` / `pd.NA` / `None`) are
modelled as `Option`; Python floats are modelled as exact rationals `ℚ`;
Python's arbitrary-precision `int` as `ℕ`/`ℤ`.

Python string primitives (`strip`, `split`, `lower`, `isdigit`, `int(...)`)
are re-implemented on `List Char` so that everything reduces by `decide`/`rfl`.
-/

namespace Reinv

/-- Python `str.strip()` (ASCII whitespace fragment). -/
def pyStrip (s : String) : String :=
  String.mk (((s.data.dropWhile Char.isWhitespace).reverse.dropWhile Char.isWhitespace).reverse)

/-- Python `str.lower()` (ASCII fragment). -/
def pyLower (s : String) : String :=
  String.mk (s.data.map Char.toLower)

/-- Helper for Python `str.split()` (split on whitespace runs, dropping empties). -/
def wordsAux : List Char → List Char → List String
  | [], acc => if acc = [] then [] else [String.mk acc.reverse]
  | c :: cs, acc =>
    if c.isWhitespace then
      (if acc = [] then wordsAux cs [] else String.mk acc.reverse :: wordsAux cs [])
    else wordsAux cs (c :: acc)

/-- Python `name.strip().split()`. -/
def pySplit (s : String) : List String := wordsAux s.data []

/-- Helper for `re.split(r'[;,]', s)`: split on each `;` or `,`, keeping empties. -/
def splitSepAux : List Char → List Char → List String
  | [], acc => [String.mk acc.reverse]
  | c :: cs, acc =>
    if c = ';' ∨ c = ',' then String.mk acc.reverse :: splitSepAux cs []
    else splitSepAux cs (c :: acc)

/-- `re.split(r'[;,]', s)`. -/
def splitSep (s : String) : List String := splitSepAux s.data []

/-- Numeric value of a list of ASCII digit characters (`int` on digit strings). -/
def digitsVal (cs : List Char) : Nat :=
  cs.foldl (fun acc c => acc * 10 + (c.toNat - 48)) 0

/-- Python `int(s)` restricted to the digit strings the pipeline feeds it
(`normalize_numeric_token` outputs): succeeds exactly on non-empty all-digit
strings. -/
def pyToNat? (s : String) : Option Nat :=
  if s.data ≠ [] ∧ s.data.all Char.isDigit then some (digitsVal s.data) else none

/-- Python `s.isdigit()` (ASCII fragment). -/
def pyIsDigit (s : String) : Bool :=
  !s.data.isEmpty && s.data.all Char.isDigit

/-- The regex `_INT_OR_WHOLE_FLOAT = ^\d+(?:\.0+)?$` from `final_file.py:19`,
via greedy digit-prefix decomposition (equivalent to the regex because the
letter class after the digits cannot absorb a digit). -/
def intOrWholeFloat (s : String) : Bool :=
  let ds := s.data.takeWhile Char.isDigit
  let rest := s.data.dropWhile Char.isDigit
  !ds.isEmpty &&
    (rest.isEmpty ||
      (rest.head? == some '.' && !rest.tail.isEmpty && rest.tail.all (· = '0')))

/-- Python `s.split('.', 1)[0]` : the prefix of `s` before the first `'.'`. -/
def beforeDot (s : String) : String :=
  String.mk (s.data.takeWhile (· ≠ '.'))

/-- `normalize_numeric_token` from `final_file.py:21-31`.
`none` models Python `None` / pandas-missing input and output. -/
def normalize_numeric_token (s : Option String) : Option String :=
  match s with
  | none => none
  | some s0 =>
    let s := pyStrip s0
    if s = "" then none
    else if pyIsDigit s then some s
    else if intOrWholeFloat s then some (beforeDot s)
    else none

/-- `first_valid_numeric_from_list` from `final_file.py:33-40`. -/
def first_valid_numeric_from_list (s : Option String) : Option String :=
  match s with
  | none => none
  | some s0 => (splitSep s0).findSome? (fun token => normalize_numeric_token (some token))

/-! ## Size / unit extraction (`final_file.py:43-67`) -/

/-- The allowed unit vocabulary (`final_file.py:49`). -/
def allowedUnits : List String :=
  ["g", "lb", "gr", "kg", "pk", "pack", "each", "oz", "mg", "ml", "l"]

/-- ASCII letter, the `[A-Za-z]` class. -/
def isAsciiLetter (c : Char) : Bool :=
  ('A' ≤ c && c ≤ 'Z') || ('a' ≤ c && c ≤ 'z')

/-- Rational value of `digits "." digits` (Python `float` on the regex's
group 1, modelled exactly). -/
def decimalVal (ds ds2 : List Char) : ℚ :=
  (digitsVal ds : ℚ) + (digitsVal ds2 : ℚ) / (10 : ℚ) ^ ds2.length

/-- The regex `re.match(r'^(\d+(?:\.\d+)?)([A-Za-z]+)$', t)` of
`final_file.py:52/60`, returning (parsed number, letter suffix).  The greedy
decomposition is equivalent to the regex: the trailing letter class can
match neither a digit nor `'.'`, so no backtracking alternative exists. -/
def matchNumUnit (t : String) : Option (ℚ × String) :=
  let ds := t.data.takeWhile Char.isDigit
  let rest := t.data.dropWhile Char.isDigit
  if ds.isEmpty then none
  else
    match rest with
    | '.' :: rest2 =>
      let ds2 := rest2.takeWhile Char.isDigit
      let letters := rest2.dropWhile Char.isDigit
      if ds2.isEmpty then none
      else if !letters.isEmpty && letters.all isAsciiLetter then
        some (decimalVal ds ds2, String.mk letters)
      else none
    | _ =>
      if !rest.isEmpty && rest.all isAsciiLetter then
        some ((digitsVal ds : ℚ), String.mk rest)
      else none

/-- `extract_size_and_unit` from `final_file.py:43-67`.  `name = none` models
a non-string (NaN) input, which Python returns unchanged.  The `try: float`
never fails on regex group 1, so the parsed number is always used. -/
def extract_size_and_unit (name : Option String) : Option String × ℚ × String :=
  match name with
  | none => (none, 1, "each")
  | some n =>
    match (pySplit n).reverse with
    | [] => (some n, 1, "each")
    | last :: restRev =>
      -- the second regex attempt on `words[-1]` (`final_file.py:59-66`)
      let rule2 : Option String × ℚ × String :=
        match matchNumUnit last with
        | some (num, suffix) =>
          let unit := pyLower suffix
          if unit ∈ allowedUnits then
            (some (String.intercalate " " restRev.reverse), num, unit)
          else (some n, 1, "each")
        | none => (some n, 1, "each")
      if pyLower last = "each" then
        match restRev with
        | [] => rule2
        | t :: rest2Rev =>
          match matchNumUnit t with
          | some (num, suffix) =>
            let unit := pyLower suffix
            if unit ∈ allowedUnits then
              (some (String.intercalate " " rest2Rev.reverse), num, unit)
            else rule2
          | none => rule2
      else rule2

/-- The first extraction rule as the spec states it (§4.2 rule 1), written
over `getLast?`/`dropLast` rather than the code's reversed word list: if the
last word is exactly `each` (case-insensitively), at least two words exist,
and the second-to-last word matches digits-then-letters with an allowed
letter suffix, strip both trailing words. -/
def ruleEachStrip (ws : List String) : Option (Option String × ℚ × String) :=
  match ws.getLast? with
  | none => none
  | some lastW =>
    if pyLower lastW = "each" ∧ 2 ≤ ws.length then
      match ws.dropLast.getLast? with
      | none => none
      | some t =>
        match matchNumUnit t with
        | none => none
        | some (num, suffix) =>
          if pyLower suffix ∈ allowedUnits then
            some (some (String.intercalate " " ws.dropLast.dropLast), num, pyLower suffix)
          else none
    else none

/-- The second extraction rule as the spec states it (§4.2 rule 2): the last
word alone matches digits-then-letters with an allowed unit; strip it. -/
def ruleLastStrip (ws : List String) : Option (Option String × ℚ × String) :=
  match ws.getLast? with
  | none => none
  | some lastW =>
    match matchNumUnit lastW with
    | none => none
    | some (num, suffix) =>
      if pyLower suffix ∈ allowedUnits then
        some (some (String.intercalate " " ws.dropLast), num, pyLower suffix)
      else none

/-- The extractor as described by the spec's rule-precedence wording
(§4.2, claim C5): rule 1, otherwise rule 2, otherwise the default triple.
To be compared against `extract_size_and_unit`, which follows the code. -/
def extractSpec (name : Option String) : Option String × ℚ × String :=
  match name with
  | none => (none, 1, "each")
  | some n => ((ruleEachStrip (pySplit n)).or (ruleLastStrip (pySplit n))).getD (some n, 1, "each")

/-! ## Lookup-code selection (`final_file.py:70-84`) -/

/-- The per-side token of `final_file.py:74-75`:
`first_valid_numeric_from_list(x) or normalize_numeric_token(x) or ""`
applied to the stripped raw field (`""` when the field is pandas-missing). -/
def resolvedToken (raw : Option String) : String :=
  let s := pyStrip (raw.getD "")
  ((first_valid_numeric_from_list (some s)).or (normalize_numeric_token (some s))).getD ""

/-- `int(tok) if tok else None` with the bare `except` of `final_file.py:76-79`
(on `normalize_numeric_token` outputs, `int` succeeds exactly on non-empty
all-digit strings). -/
def tokenInt (tok : String) : Option Nat :=
  if tok = "" then none else pyToNat? tok

/-- `get_lookup_code` from `final_file.py:70-84`; the two `row[...]` fields
are passed directly, `none` modelling a pandas-missing cell. -/
def get_lookup_code (code sku : Option String) : String :=
  let pc := resolvedToken code
  let sk := resolvedToken sku
  let pc_int := tokenInt pc
  let sk_int := tokenInt sk
  match pc_int, sk_int with
  | some p, some s => if p ≥ s then pc else sk
  | some _, none => pc
  | none, some _ => sk
  | none, none => ""

/-! ## Retail rounding (`final_file.py:87-96`) -/

/-- Round half to even on `ℚ` (the rounding of Python's `round` and
numpy's `Series.round`). -/
def roundHalfEven (x : ℚ) : ℤ :=
  let f : ℤ := ⌊x⌋
  let r : ℚ := x - f
  if r < 1/2 then f
  else if 1/2 < r then f + 1
  else if Even f then f else f + 1

/-- Python `round(x, 2)`. -/
def pyRound2 (x : ℚ) : ℚ := (roundHalfEven (x * 100) : ℚ) / 100

/-- The candidate cent endings (`final_file.py:91`). -/
def cents : List ℚ := [29/100, 49/100, 79/100, 99/100]

/-- The tolerance `1e-9` of `final_file.py:94`. -/
def rrEps : ℚ := 1 / 10 ^ 9

/-- `retail_round` from `final_file.py:87-96`; `none` models NaN, which is
passed through. -/
def retail_round (x : Option ℚ) : Option ℚ :=
  match x with
  | none => none
  | some x =>
    let base : ℤ := ⌊x⌋
    let fractional : ℚ := x - base
    match cents.find? (fun c => fractional ≤ c + rrEps) with
    | some c => some (pyRound2 ((base : ℚ) + c))
    | none => some (pyRound2 ((base : ℚ) + 1 + 29/100))

/-! ## Main transform (`process_mapped_items`, `final_file.py:99-142`)

A source row of `mapped_items.xlsx`.  `code` and `sku` are read with pandas
`string` dtype (`none` = `pd.NA`); `price` is modelled after
`pd.to_numeric(..., errors="coerce")` as `Option ℚ` (`none` = NaN);
`unit_count` covers both an absent column and a missing cell by `none`. -/
structure RawRow where
  name : Option String
  code : Option String
  sku : Option String
  price : Option ℚ
  priceType : Option String
  unit_count : Option ℤ
deriving DecidableEq, Repr

/-- An output row of the transform (columns of `out`). -/
structure OutRec where
  cost_price_per_unit : Option ℚ
  cost_unit : String
  lookup_code : String
  name : Option String
  size : ℚ
  size_uom : String
  unit_count : Option ℤ
  alcoholic : Bool
deriving DecidableEq, Repr

/-- Python `s in t` substring test on `List Char`. -/
def listInfix (pat cs : List Char) : Bool :=
  (List.range (cs.length + 1)).any (fun i => (cs.drop i).take pat.length = pat)

/-- The Stage-A mask `str.contains(r'case|dozen', case=False)` of
`final_file.py:109`; `astype(str)` renders a missing name as `"nan"`. -/
def nameHasCaseDozen (name : Option String) : Bool :=
  let low := (pyLower (name.getD "nan")).data
  listInfix "case".data low || listInfix "dozen".data low

/-- Stage A — bulk-pack exclusion (`final_file.py:109`). -/
def stageA (rows : List RawRow) : List RawRow :=
  rows.filter (fun r => !nameHasCaseDozen r.name)

/-- Blankness of an identifier cell: `isna() | (str.strip() == "")`
(`final_file.py:110-111,114`). -/
def cellBlank (c : Option String) : Bool :=
  c.isNone || (pyStrip (c.getD "")) == ""

/-- Stage B, first filter: drop rows where both `code` and `sku` are blank
(`final_file.py:110-112`). -/
def stageB1 (rows : List RawRow) : List RawRow :=
  rows.filter (fun r => !(cellBlank r.code && cellBlank r.sku))

/-- Stage B, second filter: `_valid_row` (`final_file.py:113-116`). -/
def stageB2 (rows : List RawRow) : List RawRow :=
  rows.filter (fun r =>
    !(cellBlank r.code && (normalize_numeric_token r.sku).isNone))

/-- Stage B — identifier presence filter: both filters in sequence. -/
def stageB (rows : List RawRow) : List RawRow := stageB2 (stageB1 rows)

/-- `map_cost_unit` (`final_file.py:120-124`); `str(pd.NA)`-like rendering of
a missing cell can never hit the vocabularies, modelled by `"nan"`. -/
def map_cost_unit (x : Option String) : String :=
  let s := pyLower (pyStrip (x.getD "nan"))
  if s ∈ ["fixed", "fix", "fixed price", "fixed_price", "fixedprice"] then "each"
  else if s ∈ ["per unit", "per_unit", "perunit"] then "lb"
  else ""

/-- Stages C-E for one surviving row: field derivation (`final_file.py:117-131`),
pack reconciliation (`final_file.py:132-135`) and the `alcoholic` placeholder
(`final_file.py:136`). -/
def deriveRec (r : RawRow) : OutRec :=
  let cpu := retail_round (r.price.map (fun p => p * (113/100)))
  let cu := map_cost_unit r.priceType
  let lk := get_lookup_code r.code r.sku
  let e := extract_size_and_unit r.name
  let nm := e.1
  let sz := e.2.1
  let uom := e.2.2
  if uom = "pk" ∨ uom = "pack" then
    { cost_price_per_unit := cpu, cost_unit := cu, lookup_code := lk,
      name := nm, size := 1, size_uom := uom,
      unit_count := match r.unit_count with
        | some u => some u
        | none => some (roundHalfEven sz),
      alcoholic := false }
  else
    { cost_price_per_unit := cpu, cost_unit := cu, lookup_code := lk,
      name := nm, size := sz, size_uom := uom,
      unit_count := r.unit_count, alcoholic := false }

/-- Stage F — defensive empty-code filter (`final_file.py:137`). -/
def stageF (recs : List OutRec) : List OutRec :=
  recs.filter (fun o => !(pyStrip o.lookup_code == ""))

/-- `_price_for_rank`: the dedup ranking key, `cost_price_per_unit` with NaN
filled by `-inf` (`final_file.py:139`), i.e. `Option ℚ` ordered with
`none` at the bottom. -/
def priceKey (o : OutRec) : WithBot ℚ := o.cost_price_per_unit

/-- Stage G — deduplication (`final_file.py:138-141`): keep the rows whose
`groupby("lookup_code") ... rank(method="first", ascending=False)` is 1,
i.e. row `i` survives iff every other row `j` of its `lookup_code` group has
a strictly smaller key, or an equal key and a later position.  The boolean
row filter preserves the original row order. -/
def dedupKeep (l : List OutRec) (p : ℕ × OutRec) : Bool :=
  l.enum.all (fun q =>
    q.1 == p.1 ||
    !(q.2.lookup_code == p.2.lookup_code) ||
    decide (priceKey q.2 < priceKey p.2) ||
    (decide (priceKey q.2 = priceKey p.2) && p.1 < q.1))

/-- Stage G applied to the surviving record list. -/
def stageG (l : List OutRec) : List OutRec :=
  (l.enum.filter (dedupKeep l)).map (·.2)

/-- Stages A-G composed: the row processing of `process_mapped_items` on the
in-memory record sequence. -/
def pipelineRows (rows : List RawRow) : List OutRec :=
  stageG (stageF ((stageB (stageA rows)).map deriveRec))

/-- The in-memory input table: the schema (column list) of the spreadsheet
plus its rows. -/
structure ItemTable where
  cols : List String
  rows : List RawRow

/-- The required columns (`final_file.py:104`). -/
def requiredCols : List String := ["name", "code", "sku", "price", "priceType"]

/-- The two error exits of `process_mapped_items`: the `KeyError` of
`final_file.py:107` for missing required columns, and the pandas
`ValueError("Columns must be same length as key")` raised at
`final_file.py:130` when stages A-B drop every row — on an empty `df_f`,
`df_f[name_col].apply(_process_name)` returns an empty `Series` (the
per-row function is never called), and assigning that 1-dimensional empty
result to the three-column key `["name","size","size_uom"]` fails. -/
inductive PipelineError where
  | keyError (missing : List String)
  | valueError
deriving DecidableEq, Repr

/-- `process_mapped_items` (`final_file.py:99-142`) on the in-memory table:
missing required columns raise `KeyError` before any row is processed; with
the full schema, a record set whose rows are all dropped by stages A-B
crashes at `final_file.py:130` (see `PipelineError.valueError`); when at
least one row survives Stage B, every remaining row-level operation is total
and the full stage A-G output is returned. -/
def process_mapped_items (t : ItemTable) : Except PipelineError (List OutRec) :=
  let missing := requiredCols.filter (fun c => !(t.cols.contains c))
  if missing ≠ [] then .error (.keyError missing)
  else if stageB (stageA t.rows) = [] then .error .valueError
  else .ok (pipelineRows t.rows)

/-! ## Concrete sample data -/

/-- A source row: post-markup price `2.90 × 1.13 = 3.277`, rounded to `3.29`. -/
def wrow1 : RawRow :=
  { name := some "Spice Mix", code := some "500", sku := none,
    price := some (29/10), priceType := some "fixed", unit_count := none }

/-- A source row sharing `lookup_code "500"` with `wrow1`: post-markup price
`4.60 × 1.13 = 5.198`, rounded to `5.29`. -/
def wrow2 : RawRow :=
  { name := some "Spice Mix Large", code := some "500", sku := none,
    price := some (23/5), priceType := some "fixed", unit_count := none }

/-- A row with a non-blank but non-numeric `code` and a blank `sku`: it
survives Stages A and B yet resolves to an empty `lookup_code`. -/
def c10row : RawRow :=
  { name := some "Mystery Widget", code := some "abc", sku := none,
    price := some 1, priceType := some "fixed", unit_count := none }

/-- A table whose schema is missing `sku`, `price` and `priceType`. -/
def wtblBad : ItemTable := { cols := ["name", "code"], rows := [wrow1] }

/-- A table with the full required schema. -/
def wtblGood : ItemTable :=
  { cols := ["name", "code", "sku", "price", "priceType"], rows := [wrow1, wrow2] }

/-- A full-schema row whose identifiers are both blank: Stage B drops it. -/
def c8row : RawRow :=
  { name := some "Water", code := none, sku := none,
    price := some 1, priceType := some "fixed", unit_count := none }

/-- The failing input for the empty-survivors crash: full schema, one row,
zero rows left after Stage B. -/
def wtblCrash : ItemTable := { cols := requiredCols, rows := [c8row] }

/-- The canonical record derived from `wrow1` (price `3.29`). -/
def orec329 : OutRec :=
  { cost_price_per_unit := some (329/100), cost_unit := "each", lookup_code := "500",
    name := some "Spice Mix", size := 1, size_uom := "each",
    unit_count := none, alcoholic := false }

/-- The canonical record derived from `wrow2` (price `5.29`). -/
def orec529 : OutRec :=
  { cost_price_per_unit := some (529/100), cost_unit := "each", lookup_code := "500",
    name := some "Spice Mix Large", size := 1, size_uom := "each",
    unit_count := none, alcoholic := false }

/-! ## Sanity checks on the embedding (the spec's §8 testable values) -/

example : normalize_numeric_token (some "182") = some "182" := by decide
example : normalize_numeric_token (some "182.000") = some "182" := by decide
example : normalize_numeric_token (some "182.5") = none := by decide
example : normalize_numeric_token (some "") = none := by decide
example : normalize_numeric_token (some " 007 ") = some "007" := by decide
example : normalize_numeric_token (some "182.") = none := by decide
example : first_valid_numeric_from_list (some "abc;182;99") = some "182" := by decide
example : first_valid_numeric_from_list (some "") = none := by decide

example : extract_size_and_unit (some "Olive Oil 500ml") = (some "Olive Oil", 500, "ml") := by decide
example : extract_size_and_unit (some "Chips 50g each") = (some "Chips", 50, "g") := by decide
example : extract_size_and_unit (some "Plain Water") = (some "Plain Water", 1, "each") := by decide
example : extract_size_and_unit (some "Juice 1.5l") = (some "Juice", 3/2, "l") :=
  of_decide_eq_true (by with_unfolding_all rfl)
example : extract_size_and_unit (some "Box 10xy") = (some "Box 10xy", 1, "each") := by decide
example : extract_size_and_unit (some "Eggs each") = (some "Eggs each", 1, "each") := by decide

example : get_lookup_code (some "50") (some "120") = "120" := by decide
example : get_lookup_code (some "") (some "77") = "77" := by decide
example : get_lookup_code (some "") (some "abc") = "" := by decide
example : get_lookup_code (some "007") (some "5") = "007" := by decide
example : get_lookup_code (some "abc") none = "" := by decide
example : get_lookup_code (some "abc;182") (some "99") = "182" := by decide

set_option maxRecDepth 10000 in
example : retail_round (some 10) = some (1029/100) :=
  of_decide_eq_true (by with_unfolding_all rfl)
set_option maxRecDepth 10000 in
example : retail_round (some (1030/100)) = some (1049/100) :=
  of_decide_eq_true (by with_unfolding_all rfl)
set_option maxRecDepth 10000 in
example : retail_round (some (1095/100)) = some (1099/100) :=
  of_decide_eq_true (by with_unfolding_all rfl)
set_option maxRecDepth 10000 in
example : retail_round (some (1099/100)) = some (1099/100) :=
  of_decide_eq_true (by with_unfolding_all rfl)
set_option maxRecDepth 10000 in
example : retail_round (some (999/1000)) = some (129/100) :=
  of_decide_eq_true (by with_unfolding_all rfl)

set_option maxRecDepth 100000 in
example : pipelineRows [wrow1, wrow2] = [orec529] :=
  of_decide_eq_true (by with_unfolding_all rfl)
set_option maxRecDepth 100000 in
example : pipelineRows [wrow1] = [orec329] :=
  of_decide_eq_true (by with_unfolding_all rfl)

/-! ## Helper lemmas: characters and strings -/

theorem toLower_of_isDigit {c : Char} (h : c.isDigit = true) : c.toLower = c := by
  simp only [Char.isDigit, Bool.and_eq_true, decide_eq_true_eq] at h
  have h2 : c.toNat ≤ 57 := h.2
  simp only [Char.toLower]
  rw [if_neg]
  omega

theorem not_whitespace_of_isDigit {c : Char} (h : c.isDigit = true) : c.isWhitespace = false := by
  simp only [Char.isDigit, Bool.and_eq_true, decide_eq_true_eq] at h
  have h1 : 48 ≤ c.toNat := h.1
  cases hw : c.isWhitespace
  · rfl
  · exfalso
    simp only [Char.isWhitespace, Bool.or_eq_true, decide_eq_true_eq] at hw
    rcases hw with ((rfl | rfl) | rfl) | rfl <;> exact absurd h1 (by decide)

theorem ne_sep_of_isDigit {c : Char} (h : c.isDigit = true) : ¬(c = ';' ∨ c = ',') := by
  simp only [Char.isDigit, Bool.and_eq_true, decide_eq_true_eq] at h
  have h1 : 48 ≤ c.toNat := h.1
  have h2 : c.toNat ≤ 57 := h.2
  rintro (rfl | rfl)
  · exact absurd h2 (by decide)
  · exact absurd h1 (by decide)

theorem isDigit_false_of_toLower_eq_e {c : Char} (h : c.toLower = 'e') : c.isDigit = false := by
  cases hd : c.isDigit
  · rfl
  · rw [toLower_of_isDigit hd] at h
    subst h
    exact absurd hd (by decide)

theorem mk_data (s : String) : String.mk s.data = s := by cases s; rfl

theorem data_eq_nil_iff {s : String} : s.data = [] ↔ s = "" := by
  constructor
  · intro h
    have := mk_data s
    rw [h] at this
    exact this.symm
  · rintro rfl; rfl

theorem takeWhile_append_neg {p : Char → Bool} {a : List Char} {c : Char} {cs : List Char}
    (ha : ∀ x ∈ a, p x = true) (hc : p c = false) :
    (a ++ c :: cs).takeWhile p = a := by
  induction a with
  | nil => simp [List.takeWhile, hc]
  | cons x xs ih =>
    simp only [List.cons_append, List.takeWhile]
    rw [ha x (by simp)]
    simp only [List.cons.injEq, true_and]
    exact ih (fun y hy => ha y (by simp [hy]))

theorem dropWhile_append_neg {p : Char → Bool} {a : List Char} {c : Char} {cs : List Char}
    (ha : ∀ x ∈ a, p x = true) (hc : p c = false) :
    (a ++ c :: cs).dropWhile p = c :: cs := by
  induction a with
  | nil => simp [List.dropWhile, hc]
  | cons x xs ih =>
    simp only [List.cons_append, List.dropWhile]
    rw [ha x (by simp)]
    exact ih (fun y hy => ha y (by simp [hy]))

theorem dropWhile_eq_self_of_neg {p : Char → Bool} {l : List Char}
    (h : ∀ x ∈ l, p x = false) : l.dropWhile p = l := by
  cases l with
  | nil => rfl
  | cons x xs => simp [List.dropWhile, h x (by simp)]

/-- Stripping a string without leading/trailing-relevant whitespace anywhere
is the identity. -/
theorem pyStrip_of_no_ws {s : String} (h : ∀ c ∈ s.data, c.isWhitespace = false) :
    pyStrip s = s := by
  unfold pyStrip
  rw [dropWhile_eq_self_of_neg h]
  rw [dropWhile_eq_self_of_neg (fun c hc => h c (List.mem_reverse.mp hc))]
  rw [List.reverse_reverse]

theorem splitSepAux_no_sep {cs : List Char} (acc : List Char)
    (h : ∀ c ∈ cs, ¬(c = ';' ∨ c = ',')) :
    splitSepAux cs acc = [String.mk (acc.reverse ++ cs)] := by
  induction cs generalizing acc with
  | nil => simp [splitSepAux]
  | cons c cs ih =>
    rw [splitSepAux, if_neg (h c (by simp))]
    rw [ih (c :: acc) (fun x hx => h x (by simp [hx]))]
    simp

/-- On a non-empty all-digit string the normalizer is the identity. -/
theorem normalize_digits {s : String} (hne : s.data ≠ [])
    (hd : ∀ c ∈ s.data, c.isDigit = true) :
    normalize_numeric_token (some s) = some s := by
  have hstrip : pyStrip s = s :=
    pyStrip_of_no_ws (fun c hc => not_whitespace_of_isDigit (hd c hc))
  unfold normalize_numeric_token
  simp only [hstrip]
  rw [if_neg (fun he => hne (data_eq_nil_iff.mpr he)), if_pos]
  simp only [pyIsDigit, Bool.and_eq_true, List.all_eq_true]
  refine ⟨by simpa using hne, fun c hc => by simpa using hd c (by simpa using hc)⟩

/-- On a non-empty all-digit string the per-side resolver token is the
string itself, verbatim. -/
theorem resolvedToken_digits {s : String} (hne : s.data ≠ [])
    (hd : ∀ c ∈ s.data, c.isDigit = true) :
    resolvedToken (some s) = s := by
  have hstrip : pyStrip s = s :=
    pyStrip_of_no_ws (fun c hc => not_whitespace_of_isDigit (hd c hc))
  unfold resolvedToken first_valid_numeric_from_list
  simp only [Option.getD_some, hstrip]
  rw [show splitSep s = [s] by
    unfold splitSep
    rw [splitSepAux_no_sep [] (fun c hc => ne_sep_of_isDigit (hd c hc))]
    simp [mk_data]]
  simp [List.findSome?, normalize_digits hne hd]

/-! ## Helper lemmas: Stage F and Stage G -/

theorem mem_stageF_ne_empty {recs : List OutRec} {o : OutRec} (h : o ∈ stageF recs) :
    o.lookup_code ≠ "" := by
  have hp := List.of_mem_filter h
  simp only [Bool.not_eq_true', beq_eq_false_iff_ne, ne_eq] at hp
  intro he
  exact hp (by rw [he]; rfl)

theorem enum_pairwise_fst_lt {α : Type} (l : List α) :
    l.enum.Pairwise (fun p q => p.1 < q.1) := by
  rw [List.pairwise_iff_get]
  intro i j hij
  simp only [List.get_eq_getElem, List.getElem_enum]
  simpa using hij

/-- Unpacking the Stage-G keep condition against one other row. -/
theorem dedupKeep_spec {l : List OutRec} {p q : ℕ × OutRec}
    (hp : dedupKeep l p = true) (hq : q ∈ l.enum) :
    q.1 = p.1 ∨ q.2.lookup_code ≠ p.2.lookup_code ∨
      priceKey q.2 < priceKey p.2 ∨
      (priceKey q.2 = priceKey p.2 ∧ p.1 < q.1) := by
  have h := List.all_eq_true.mp hp q hq
  simp only [Bool.or_eq_true, beq_iff_eq, Bool.not_eq_true', beq_eq_false_iff_ne, ne_eq,
    decide_eq_true_eq, Bool.and_eq_true] at h
  tauto

/-- Two distinct Stage-G winners never share a `lookup_code`. -/
theorem dedupKeep_mutual {l : List OutRec} {p q : ℕ × OutRec}
    (hp : dedupKeep l p = true) (hq : dedupKeep l q = true)
    (hpe : p ∈ l.enum) (hqe : q ∈ l.enum) (hlt : p.1 < q.1) :
    p.2.lookup_code ≠ q.2.lookup_code := by
  intro hkey
  rcases dedupKeep_spec hp hqe with h1 | h1 | h1 | h1
  · exact absurd h1.symm (Nat.ne_of_lt hlt)
  · exact h1 hkey.symm
  · rcases dedupKeep_spec hq hpe with h2 | h2 | h2 | h2
    · exact absurd h2 (Nat.ne_of_lt hlt)
    · exact h2 hkey
    · exact absurd h2 (lt_asymm h1)
    · exact absurd (h2.1 ▸ h1) (lt_irrefl _)
  · rcases dedupKeep_spec hq hpe with h2 | h2 | h2 | h2
    · exact absurd h2 (Nat.ne_of_lt hlt)
    · exact h2 hkey
    · exact absurd (h1.1 ▸ h2) (lt_irrefl _)
    · exact absurd h2.2 (Nat.lt_asymm h1.2)

theorem stageG_pairwise_key (l : List OutRec) :
    (stageG l).Pairwise (fun a b => a.lookup_code ≠ b.lookup_code) := by
  unfold stageG
  rw [List.pairwise_map]
  have h1 : (l.enum.filter (dedupKeep l)).Pairwise (fun p q => p.1 < q.1) :=
    (enum_pairwise_fst_lt l).filter _
  refine h1.imp_of_mem ?_
  intro a b ha hb hab
  exact dedupKeep_mutual (List.of_mem_filter ha) (List.of_mem_filter hb)
    (List.mem_of_mem_filter ha) (List.mem_of_mem_filter hb) hab

theorem stageG_sublist (l : List OutRec) : List.Sublist (stageG l) l := by
  have h := (List.filter_sublist (p := dedupKeep l) l.enum).map Prod.snd
  rw [List.enum_map_snd] at h
  exact h

theorem mem_of_mem_stageG {l : List OutRec} {o : OutRec} (h : o ∈ stageG l) : o ∈ l :=
  (stageG_sublist l).mem h

/-- The Stage-G winner characterization: a record is kept exactly when it sits
at a position that realizes the maximum ranking key of its `lookup_code`
group, earliest among the positions that realize it. -/
theorem mem_stageG_iff {l : List OutRec} {o : OutRec} :
    o ∈ stageG l ↔ ∃ i : Fin l.length, l.get i = o ∧
      ∀ j : Fin l.length, (l.get j).lookup_code = o.lookup_code →
        priceKey (l.get j) ≤ priceKey (l.get i) ∧
          (priceKey (l.get j) = priceKey (l.get i) → (i : ℕ) ≤ (j : ℕ)) := by
  constructor
  · intro h
    obtain ⟨p, hpf, hpo⟩ := List.mem_map.mp h
    have hpe : p ∈ l.enum := List.mem_of_mem_filter hpf
    have hpk : dedupKeep l p = true := List.of_mem_filter hpf
    have hget : l[p.1]? = some p.2 := List.mem_enum_iff_getElem?.mp hpe
    have hlen : p.1 < l.length := by
      by_contra hge
      rw [List.getElem?_eq_none (by omega)] at hget
      exact Option.noConfusion hget
    have hio : l.get ⟨p.1, hlen⟩ = p.2 := by
      apply Option.some_injective
      rw [← hget, List.getElem?_eq_getElem hlen]
      rfl
    refine ⟨⟨p.1, hlen⟩, hio.trans hpo, ?_⟩
    intro j hkey
    have hje : (↑j, l.get j) ∈ l.enum := by
      rw [List.mem_enum_iff_getElem?]
      simp [List.get_eq_getElem, List.getElem?_eq_getElem j.isLt]
    rcases dedupKeep_spec hpk hje with h1 | h1 | h1 | h1
    · have : j = (⟨p.1, hlen⟩ : Fin l.length) := Fin.ext h1
      rw [this]
      exact ⟨le_refl _, fun _ => le_refl _⟩
    · exfalso
      apply h1
      rw [hkey, ← hpo]
    · rw [hio]
      exact ⟨le_of_lt h1, fun heq => absurd (heq ▸ h1) (lt_irrefl _)⟩
    · rw [hio]
      exact ⟨le_of_eq h1.1, fun _ => le_of_lt h1.2⟩
  · rintro ⟨i, rfl, hwin⟩
    apply List.mem_map.mpr
    refine ⟨((i : ℕ), l.get i), List.mem_filter.mpr ⟨?_, ?_⟩, rfl⟩
    · rw [List.mem_enum_iff_getElem?]
      simp [List.get_eq_getElem, List.getElem?_eq_getElem i.isLt]
    · unfold dedupKeep
      rw [List.all_eq_true]
      intro q hqe
      have hget : l[q.1]? = some q.2 := List.mem_enum_iff_getElem?.mp hqe
      have hlen : q.1 < l.length := by
        by_contra hge
        rw [List.getElem?_eq_none (by omega)] at hget
        exact Option.noConfusion hget
      have hq2 : q.2 = l.get ⟨q.1, hlen⟩ := by
        have := List.getElem?_eq_getElem hlen ▸ hget
        simpa [List.get_eq_getElem] using (Option.some_injective _ this).symm
      simp only [Bool.or_eq_true, beq_iff_eq, Bool.not_eq_true', beq_eq_false_iff_ne, ne_eq,
        decide_eq_true_eq, Bool.and_eq_true]
      by_cases hkey : q.2.lookup_code = (l.get i).lookup_code
      · have hw := hwin ⟨q.1, hlen⟩ (by rw [← hq2]; exact hkey)
        by_cases hlt : priceKey q.2 < priceKey (l.get i)
        · exact Or.inl (Or.inr hlt)
        · have heq : priceKey q.2 = priceKey (l.get i) := by
            rw [hq2] at hlt ⊢
            exact le_antisymm hw.1 (not_lt.mp hlt)
          have hile : (i : ℕ) ≤ q.1 := by
            apply hw.2
            rw [← hq2]
            exact heq
          by_cases hqi : q.1 = (i : ℕ)
          · exact Or.inl (Or.inl (Or.inl hqi))
          · exact Or.inr ⟨heq, lt_of_le_of_ne hile (fun hc => hqi hc.symm)⟩
      · exact Or.inl (Or.inl (Or.inr hkey))

/-- Every `lookup_code` occurring among the survivors has a Stage-G winner. -/
theorem stageG_exists_key {l : List OutRec} {o₀ : OutRec} (h : o₀ ∈ l) :
    ∃ o ∈ stageG l, o.lookup_code = o₀.lookup_code := by
  obtain ⟨i₀, hi₀⟩ := List.mem_iff_get.mp h
  classical
  let S : Finset (Fin l.length) :=
    Finset.univ.filter (fun j => (l.get j).lookup_code = o₀.lookup_code)
  have hSne : S.Nonempty := ⟨i₀, Finset.mem_filter.mpr ⟨Finset.mem_univ _, by rw [hi₀]⟩⟩
  have hTne : (S.image (fun j => priceKey (l.get j))).Nonempty := hSne.image _
  set M := (S.image (fun j => priceKey (l.get j))).max' hTne with hM
  have hMmem : M ∈ S.image (fun j => priceKey (l.get j)) := Finset.max'_mem _ _
  obtain ⟨jM, hjM, hjMeq⟩ := Finset.mem_image.mp hMmem
  let U : Finset (Fin l.length) := S.filter (fun j => priceKey (l.get j) = M)
  have hUne : U.Nonempty := ⟨jM, Finset.mem_filter.mpr ⟨hjM, hjMeq⟩⟩
  set i := U.min' hUne with hi
  have hiU : i ∈ U := Finset.min'_mem _ _
  have hiS : i ∈ S := (Finset.mem_filter.mp hiU).1
  have hiM : priceKey (l.get i) = M := (Finset.mem_filter.mp hiU).2
  have hikey : (l.get i).lookup_code = o₀.lookup_code := (Finset.mem_filter.mp hiS).2
  refine ⟨l.get i, ?_, hikey⟩
  apply mem_stageG_iff.mpr
  refine ⟨i, rfl, ?_⟩
  intro j hjkey
  have hjS : j ∈ S := Finset.mem_filter.mpr ⟨Finset.mem_univ _, hjkey.trans hikey⟩
  constructor
  · rw [hiM, hM]
    exact Finset.le_max' (S.image (fun j => priceKey (l.get j))) (priceKey (l.get j))
      (Finset.mem_image.mpr ⟨j, hjS, rfl⟩)
  · intro hjeq
    have hjU : j ∈ U := Finset.mem_filter.mpr ⟨hjS, by rw [hjeq, hiM]⟩
    exact Finset.min'_le _ _ hjU

/-! ## Claim theorems -/

/-- Claim C1: in the final output sequence produced by `process_mapped_items`,
every record's `lookup_code` is a non-empty string, and no two records in the
output share the same `lookup_code`. -/
theorem C1_lookup_nonempty_unique (rows : List RawRow) :
    (∀ o ∈ pipelineRows rows, o.lookup_code ≠ "") ∧
      (pipelineRows rows).Pairwise (fun a b => a.lookup_code ≠ b.lookup_code) := by
  constructor
  · intro o ho
    have hmem : o ∈ stageF ((stageB (stageA rows)).map deriveRec) := mem_of_mem_stageG ho
    exact mem_stageF_ne_empty hmem
  · exact stageG_pairwise_key _

set_option maxRecDepth 400000 in
/-- Claim C1, witness: the invariant evaluated on a concrete two-row input. -/
theorem C1_witness :
    orec529 ∈ pipelineRows [wrow1, wrow2] ∧ orec529.lookup_code ≠ "" :=
  have hm : orec529 ∈ pipelineRows [wrow1, wrow2] := by
    rw [show pipelineRows [wrow1, wrow2] = [orec529] from
      of_decide_eq_true (by with_unfolding_all rfl)]
    exact List.mem_singleton.mpr rfl
  ⟨hm, (C1_lookup_nonempty_unique [wrow1, wrow2]).1 orec529 hm⟩

/-- Claim C3: Stage G groups the surviving records by `lookup_code` and keeps
exactly one record per group — the one with the highest ranking key
(`cost_price_per_unit`, missing price at the bottom as `-inf`), earliest
input position on ties — and the output keeps the original input order
(it is a sublist of the survivors). -/
theorem C3_stageG_dedup (l : List OutRec) :
    List.Sublist (stageG l) l ∧
      (∀ o₀ ∈ l, ∃ o ∈ stageG l, o.lookup_code = o₀.lookup_code) ∧
      (stageG l).Pairwise (fun a b => a.lookup_code ≠ b.lookup_code) ∧
      (∀ o o' : OutRec, o.cost_price_per_unit = none → o'.cost_price_per_unit ≠ none →
        priceKey o < priceKey o') ∧
      (∀ o : OutRec, o ∈ stageG l ↔ ∃ i : Fin l.length, l.get i = o ∧
        ∀ j : Fin l.length, (l.get j).lookup_code = o.lookup_code →
          priceKey (l.get j) ≤ priceKey (l.get i) ∧
            (priceKey (l.get j) = priceKey (l.get i) → (i : ℕ) ≤ (j : ℕ))) := by
  refine ⟨stageG_sublist l, fun _ h => stageG_exists_key h, stageG_pairwise_key l, ?_, fun _ => mem_stageG_iff⟩
  intro o o' hn hn'
  unfold priceKey
  rw [hn]
  cases hc : o'.cost_price_per_unit with
  | none => exact absurd hc hn'
  | some q => exact WithBot.bot_lt_coe q

set_option maxRecDepth 400000 in
/-- Claim C3, witness: on the spec's two-record example sharing
`lookup_code "500"` with prices `3.29` and `5.29`, the `5.29` record is
retained. -/
theorem C3_witness :
    orec529 ∈ stageG [orec329, orec529] ∧
      List.Sublist (stageG [orec329, orec529]) [orec329, orec529] :=
  have h := C3_stageG_dedup [orec329, orec529]
  ⟨((h.2.2.2.2) orec529).mpr ⟨⟨1, by decide⟩, rfl,
    of_decide_eq_true (by with_unfolding_all rfl)⟩, h.1⟩

/-- Claim C7: Stage B drops a record exactly when both `code` and `sku` are
blank, or `code` is blank and `sku` does not normalize to a clean numeric
token; every other record survives. -/
theorem C7_stageB_drop_condition (rows : List RawRow) :
    stageB rows = rows.filter (fun r =>
      !((cellBlank r.code && cellBlank r.sku) ||
        (cellBlank r.code && (normalize_numeric_token r.sku).isNone))) := by
  unfold stageB stageB1 stageB2
  rw [List.filter_filter]
  apply List.filter_congr
  intro r _
  cases hc : cellBlank r.code <;> cases hs : cellBlank r.sku <;>
    cases hn : (normalize_numeric_token r.sku).isNone <;> simp

/-- Claim C8 (code bug): the configuration-error half holds — a schema
missing required columns is rejected with `KeyError` before any row is
processed (evaluated at `wtblBad`) — but the no-raise half is false on the
code: with the full schema present, an input whose only row is removed by
the per-row irregularity filters (blank `code` and `sku` in `wtblCrash`)
leaves `df_f` empty and `final_file.py:130` raises
`ValueError("Columns must be same length as key")` instead of returning the
(empty) output sequence.  When rows survive Stage B the complete output is
returned (evaluated at `wtblGood`). -/
theorem C8_empty_survivors_crash :
    process_mapped_items wtblBad =
        .error (PipelineError.keyError ["sku", "price", "priceType"]) ∧
      wtblCrash.cols = requiredCols ∧
      stageB (stageA wtblCrash.rows) = [] ∧
      process_mapped_items wtblCrash = .error PipelineError.valueError ∧
      stageB (stageA wtblGood.rows) ≠ [] ∧
      process_mapped_items wtblGood = .ok (pipelineRows wtblGood.rows) :=
  ⟨rfl, rfl, rfl, rfl, by decide, rfl⟩

set_option maxRecDepth 400000 in
/-- Claim C10: the row `c10row` (non-blank non-numeric `code`, blank `sku`)
survives Stages A and B, resolves to an empty `lookup_code`, and the pipeline
drops it — and Stage F keeps no record whose stripped `lookup_code` is empty.
Stage F therefore removes records Stage B admits and is not dead code. -/
theorem C10_stageF_not_redundant :
    stageA [c10row] = [c10row] ∧
      stageB (stageA [c10row]) = [c10row] ∧
      get_lookup_code c10row.code c10row.sku = "" ∧
      (∀ l : List OutRec, (stageF l).all (fun o => !(pyStrip o.lookup_code == "")) = true) ∧
      pipelineRows [c10row] = [] := by
  refine ⟨by decide, by decide, by decide, ?_, of_decide_eq_true (by with_unfolding_all rfl)⟩
  intro l
  rw [List.all_eq_true]
  intro o ho
  have hp := List.of_mem_filter ho
  exact hp

/-- Claim C4: the resolver returns the side with the larger numeric value when
both sides parse (via first-valid-token-from-list with the whole-string
normalization fallback), the parsing side when only one parses, and the empty
string when neither does; including the spec's three example resolutions. -/
theorem C4_resolver (code sku : Option String) :
    (∀ p s : ℕ, tokenInt (resolvedToken code) = some p → tokenInt (resolvedToken sku) = some s →
      (s < p → get_lookup_code code sku = resolvedToken code) ∧
      (p < s → get_lookup_code code sku = resolvedToken sku)) ∧
    (∀ p : ℕ, tokenInt (resolvedToken code) = some p → tokenInt (resolvedToken sku) = none →
      get_lookup_code code sku = resolvedToken code) ∧
    (∀ s : ℕ, tokenInt (resolvedToken code) = none → tokenInt (resolvedToken sku) = some s →
      get_lookup_code code sku = resolvedToken sku) ∧
    (tokenInt (resolvedToken code) = none → tokenInt (resolvedToken sku) = none →
      get_lookup_code code sku = "") ∧
    get_lookup_code (some "50") (some "120") = "120" ∧
    get_lookup_code (some "") (some "77") = "77" ∧
    get_lookup_code (some "") (some "abc") = "" := by
  refine ⟨?_, ?_, ?_, ?_, by decide, by decide, by decide⟩
  · intro p s hp hs
    constructor
    · intro hlt
      simp only [get_lookup_code, hp, hs]
      rw [if_pos (le_of_lt hlt)]
    · intro hlt
      simp only [get_lookup_code, hp, hs]
      rw [if_neg (not_le.mpr hlt)]
  · intro p hp hs
    simp only [get_lookup_code, hp, hs]
  · intro s hp hs
    simp only [get_lookup_code, hp, hs]
  · intro hp hs
    simp only [get_lookup_code, hp, hs]

/-- Claim C4, witness: both sides of `("50", "120")` parse and `120 > 50`, so
the resolver returns the `sku` side. -/
theorem C4_witness : get_lookup_code (some "50") (some "120") = "120" :=
  have h := (C4_resolver (some "50") (some "120")).1 50 120 (by decide) (by decide)
  (h.2 (by decide)).trans (by decide)

/-- Claim C9: the emitted `lookup_code` is always one of the two resolved side
tokens verbatim (or empty); a non-empty all-digit side token is the raw digit
string itself, unreformatted (leading zeros survive); and an all-digit code
side whose value is at least the sku side's wins verbatim, as in
`("007", "5") → "007"` even though comparison is numeric. -/
theorem C9_verbatim (code sku : Option String) :
    (get_lookup_code code sku = "" ∨
      get_lookup_code code sku = resolvedToken code ∨
      get_lookup_code code sku = resolvedToken sku) ∧
    (∀ s : String, s.data ≠ [] → (∀ c ∈ s.data, c.isDigit = true) →
      resolvedToken (some s) = s) ∧
    (∀ s : String, s.data ≠ [] → (∀ c ∈ s.data, c.isDigit = true) →
      (∀ v : ℕ, tokenInt (resolvedToken sku) = some v → v ≤ digitsVal s.data) →
      get_lookup_code (some s) sku = s) ∧
    get_lookup_code (some "007") (some "5") = "007" := by
  refine ⟨?_, ?_, ?_, by decide⟩
  · cases hp : tokenInt (resolvedToken code) with
    | none =>
      cases hs : tokenInt (resolvedToken sku) with
      | none => exact Or.inl (by simp only [get_lookup_code, hp, hs])
      | some s => exact Or.inr (Or.inr (by simp only [get_lookup_code, hp, hs]))
    | some p =>
      cases hs : tokenInt (resolvedToken sku) with
      | none => exact Or.inr (Or.inl (by simp only [get_lookup_code, hp, hs]))
      | some s =>
        by_cases hge : p ≥ s
        · exact Or.inr (Or.inl (by simp only [get_lookup_code, hp, hs]; rw [if_pos hge]))
        · exact Or.inr (Or.inr (by simp only [get_lookup_code, hp, hs]; rw [if_neg hge]))
  · intro s hne hd
    exact resolvedToken_digits hne hd
  · intro s hne hd hsku
    have htok : resolvedToken (some s) = s := resolvedToken_digits hne hd
    have hint : tokenInt (resolvedToken (some s)) = some (digitsVal s.data) := by
      rw [htok]
      unfold tokenInt pyToNat?
      rw [if_neg (fun he => hne (by rw [he]))]
      rw [if_pos ⟨hne, by rw [List.all_eq_true]; exact hd⟩]
    cases hs : tokenInt (resolvedToken sku) with
    | none =>
      simp only [get_lookup_code, hint, hs]
      exact htok
    | some v =>
      simp only [get_lookup_code, hint, hs]
      rw [if_pos (hsku v hs)]
      exact htok

/-- Claim C9, witness: the all-digit code `"007"` resolves verbatim and wins
against a missing sku, keeping its leading zeros. -/
theorem C9_witness :
    resolvedToken (some "007") = "007" ∧ get_lookup_code (some "007") none = "007" :=
  ⟨(C9_verbatim (some "007") none).2.1 "007" (by decide) (by decide),
   (C9_verbatim (some "007") none).2.2.1 "007" (by decide) (by decide)
     (fun v hv => by
        rw [show tokenInt (resolvedToken none) = none from by decide] at hv
        exact Option.noConfusion hv)⟩

/-- Claim C6: the normalizer trims whitespace; absent or trim-empty input
yields absent; an all-digit (trimmed) string is returned unchanged; a string
of digits followed by a decimal point and trailing zeros returns the
integer-only prefix; every other shape yields absent (the function is total,
so no input ever raises). -/
theorem C6_normalize (s : String) :
    normalize_numeric_token none = none ∧
    (pyStrip s = "" → normalize_numeric_token (some s) = none) ∧
    ((pyStrip s).data ≠ [] → (∀ c ∈ (pyStrip s).data, c.isDigit = true) →
      normalize_numeric_token (some s) = some (pyStrip s)) ∧
    (∀ a b : List Char, (pyStrip s).data = a ++ '.' :: b → a ≠ [] →
      (∀ c ∈ a, c.isDigit = true) → b ≠ [] → (∀ c ∈ b, c = '0') →
      normalize_numeric_token (some s) = some (String.mk a)) ∧
    ((pyStrip s).data ≠ [] → ¬(∀ c ∈ (pyStrip s).data, c.isDigit = true) →
      (∀ a b : List Char, (pyStrip s).data = a ++ '.' :: b →
        ¬(a ≠ [] ∧ (∀ c ∈ a, c.isDigit = true) ∧ b ≠ [] ∧ (∀ c ∈ b, c = '0'))) →
      normalize_numeric_token (some s) = none) := by
  refine ⟨rfl, ?_, ?_, ?_, ?_⟩
  · intro h
    simp [normalize_numeric_token, h]
  · intro hne hd
    simp only [normalize_numeric_token]
    rw [if_neg (fun he => hne (by rw [he]))]
    rw [if_pos (by
      simp only [pyIsDigit, Bool.and_eq_true, Bool.not_eq_true', List.isEmpty_eq_false,
        List.all_eq_true]
      exact ⟨by simpa using hne, hd⟩)]
  · intro a b hab ha hda hb hdb
    have hne : (pyStrip s).data ≠ [] := by
      rw [hab]
      exact List.append_ne_nil_of_right_ne_nil a (List.cons_ne_nil _ _)
    have hmemdot : '.' ∈ (pyStrip s).data := by
      rw [hab]
      exact List.mem_append_right a (List.mem_cons_self _ _)
    have hndig : pyIsDigit (pyStrip s) = false := by
      cases hall : (pyStrip s).data.all Char.isDigit
      · simp [pyIsDigit, hall]
      · exact absurd (List.all_eq_true.mp hall '.' hmemdot) (by decide)
    have htake : (pyStrip s).data.takeWhile Char.isDigit = a := by
      rw [hab]
      exact takeWhile_append_neg hda (by decide)
    have hdrop : (pyStrip s).data.dropWhile Char.isDigit = '.' :: b := by
      rw [hab]
      exact dropWhile_append_neg hda (by decide)
    have hiw : intOrWholeFloat (pyStrip s) = true := by
      simp only [intOrWholeFloat, htake, hdrop]
      simp only [List.head?_cons, List.tail_cons, beq_self_eq_true, Bool.true_and,
        Bool.and_eq_true, Bool.or_eq_true, Bool.not_eq_true', List.isEmpty_eq_false,
        List.all_eq_true]
      exact ⟨by simpa using ha, Or.inr ⟨by simpa using hb,
        fun c hc => by simpa using hdb c hc⟩⟩
    have hbd : beforeDot (pyStrip s) = String.mk a := by
      unfold beforeDot
      rw [hab, takeWhile_append_neg ?ha ?hc]
      case ha =>
        intro x hx
        have hdx := hda x hx
        simp only [decide_eq_true_eq]
        intro hx'
        rw [hx'] at hdx
        exact absurd hdx (by decide)
      case hc => decide
    simp only [normalize_numeric_token]
    rw [if_neg (fun he => hne (by rw [he]))]
    rw [if_neg (by simp [hndig])]
    rw [if_pos hiw, hbd]
  · intro hne hnd hno
    have hndig : pyIsDigit (pyStrip s) = false := by
      cases hall : (pyStrip s).data.all Char.isDigit
      · simp [pyIsDigit, hall]
      · exact absurd (List.all_eq_true.mp hall) hnd
    have hiw : intOrWholeFloat (pyStrip s) = false := by
      cases hiw' : intOrWholeFloat (pyStrip s)
      · rfl
      · exfalso
        simp only [intOrWholeFloat, Bool.and_eq_true, Bool.or_eq_true, Bool.not_eq_true',
          List.isEmpty_eq_false, List.isEmpty_iff, beq_iff_eq, List.all_eq_true] at hiw'
        obtain ⟨hds, hrest⟩ := hiw'
        rcases hrest with hrest | ⟨⟨hhead, htail⟩, hzeros⟩
        · apply hnd
          intro c hc
          have hc' : c ∈ (pyStrip s).data.takeWhile Char.isDigit := by
            have hsplit := List.takeWhile_append_dropWhile (p := Char.isDigit)
              (l := (pyStrip s).data)
            rw [hrest, List.append_nil] at hsplit
            rw [hsplit]
            exact hc
          exact List.mem_takeWhile_imp hc'
        · set rest := (pyStrip s).data.dropWhile Char.isDigit with hrestdef
          cases hcons : rest with
          | nil => rw [hcons] at hhead; exact Option.noConfusion hhead
          | cons c zs =>
            rw [hcons] at hhead htail hzeros
            simp only [List.head?_cons, Option.some.injEq] at hhead
            simp only [List.tail_cons] at htail hzeros
            apply hno ((pyStrip s).data.takeWhile Char.isDigit) zs
            · have hsplit := List.takeWhile_append_dropWhile (p := Char.isDigit)
                (l := (pyStrip s).data)
              have h1 : (pyStrip s).data =
                  (pyStrip s).data.takeWhile Char.isDigit ++ rest := by
                rw [hrestdef]
                exact hsplit.symm
              exact h1.trans (by rw [hcons, hhead])
            · exact ⟨hds, fun c hc => List.mem_takeWhile_imp hc, htail,
                fun c hc => by simpa using hzeros c hc⟩
    simp only [normalize_numeric_token]
    rw [if_neg (fun he => hne (by rw [he]))]
    rw [if_neg (by simp [hndig])]
    rw [if_neg (by simp [hiw])]

/-- Claim C6, witness: the normalizer evaluated through the theorem on the
spec's `"182"` and `"182.000"` examples. -/
theorem C6_witness :
    normalize_numeric_token (some "182") = some "182" ∧
      normalize_numeric_token (some "182.000") = some "182" :=
  ⟨((C6_normalize "182").2.2.1 (by decide) (by decide)).trans (by decide),
   ((C6_normalize "182.000").2.2.2.1 "182".data "000".data (by decide) (by decide)
      (by decide) (by decide) (by decide)).trans (by decide)⟩

/-! ## Helper lemmas: retail rounding -/

theorem roundHalfEven_intCast (m : ℤ) : roundHalfEven (m : ℚ) = m := by
  unfold roundHalfEven
  rw [Int.floor_intCast]
  norm_num

theorem pyRound2_int_div (m : ℤ) : pyRound2 ((m : ℚ) / 100) = (m : ℚ) / 100 := by
  unfold pyRound2
  rw [div_mul_cancel₀ (m : ℚ) (by norm_num : (100 : ℚ) ≠ 0), roundHalfEven_intCast]

/-- Claim C2 (amended): for numeric input the rounder returns `⌊x⌋ + c` for
the first (least) candidate ending `c` with `x - ⌊x⌋ ≤ c + 1e-9`, rolling to
`⌊x⌋ + 1 + 0.29` when no candidate qualifies; the result always lands on a
canonical ending and is always `≥ x - 1e-9` (the unamended `≥ x` fails inside
the epsilon band, see the counterexample). -/
theorem C2_retail_round_amended (x : ℚ) :
    ∃ r : ℚ, retail_round (some x) = some r ∧
      x - rrEps ≤ r ∧
      (∃ n : ℤ, ∃ c ∈ cents, r = (n : ℚ) + c) ∧
      ((∃ c ∈ cents, (x - (⌊x⌋ : ℚ) ≤ c + rrEps ∧ r = (⌊x⌋ : ℚ) + c ∧
          ∀ c' ∈ cents, x - (⌊x⌋ : ℚ) ≤ c' + rrEps → c ≤ c')) ∨
        ((∀ c ∈ cents, ¬(x - (⌊x⌋ : ℚ) ≤ c + rrEps)) ∧
          r = (⌊x⌋ : ℚ) + 1 + 29/100)) := by
  have hfract : x - (⌊x⌋ : ℚ) < 1 := by
    have := Int.lt_floor_add_one x
    linarith
  have heps : (0 : ℚ) < rrEps := by norm_num [rrEps]
  have hcent : ∀ k : ℤ, pyRound2 ((⌊x⌋ : ℚ) + (k : ℚ) / 100) = (⌊x⌋ : ℚ) + (k : ℚ) / 100 := by
    intro k
    have h1 : (⌊x⌋ : ℚ) + (k : ℚ) / 100 = ((100 * ⌊x⌋ + k : ℤ) : ℚ) / 100 := by
      push_cast
      ring
    rw [h1, pyRound2_int_div]
  by_cases h1 : x - (⌊x⌋ : ℚ) ≤ 29/100 + rrEps
  · refine ⟨(⌊x⌋ : ℚ) + 29/100, ?_, by linarith, ⟨⌊x⌋, 29/100, by simp [cents], rfl⟩,
      Or.inl ⟨29/100, by simp [cents], h1, rfl, ?_⟩⟩
    · simp only [retail_round, cents]
      rw [List.find?_cons_of_pos _ (by simpa using h1)]
      have := hcent 29
      norm_num at this ⊢
      rw [this]
    · intro c' hc' _
      fin_cases hc' <;> norm_num
  · by_cases h2 : x - (⌊x⌋ : ℚ) ≤ 49/100 + rrEps
    · refine ⟨(⌊x⌋ : ℚ) + 49/100, ?_, by linarith, ⟨⌊x⌋, 49/100, by simp [cents], rfl⟩,
        Or.inl ⟨49/100, by simp [cents], h2, rfl, ?_⟩⟩
      · simp only [retail_round, cents]
        rw [List.find?_cons_of_neg _ (by simpa using h1),
          List.find?_cons_of_pos _ (by simpa using h2)]
        have := hcent 49
        norm_num at this ⊢
        rw [this]
      · intro c' hc' hc'sat
        fin_cases hc' <;> first | (exact absurd hc'sat h1) | norm_num
    · by_cases h3 : x - (⌊x⌋ : ℚ) ≤ 79/100 + rrEps
      · refine ⟨(⌊x⌋ : ℚ) + 79/100, ?_, by linarith, ⟨⌊x⌋, 79/100, by simp [cents], rfl⟩,
          Or.inl ⟨79/100, by simp [cents], h3, rfl, ?_⟩⟩
        · simp only [retail_round, cents]
          rw [List.find?_cons_of_neg _ (by simpa using h1),
            List.find?_cons_of_neg _ (by simpa using h2),
            List.find?_cons_of_pos _ (by simpa using h3)]
          have := hcent 79
          norm_num at this ⊢
          rw [this]
        · intro c' hc' hc'sat
          fin_cases hc' <;>
            first | (exact absurd hc'sat h1) | (exact absurd hc'sat h2) | norm_num
      · by_cases h4 : x - (⌊x⌋ : ℚ) ≤ 99/100 + rrEps
        · refine ⟨(⌊x⌋ : ℚ) + 99/100, ?_, by linarith, ⟨⌊x⌋, 99/100, by simp [cents], rfl⟩,
            Or.inl ⟨99/100, by simp [cents], h4, rfl, ?_⟩⟩
          · simp only [retail_round, cents]
            rw [List.find?_cons_of_neg _ (by simpa using h1),
              List.find?_cons_of_neg _ (by simpa using h2),
              List.find?_cons_of_neg _ (by simpa using h3),
              List.find?_cons_of_pos _ (by simpa using h4)]
            have := hcent 99
            norm_num at this ⊢
            rw [this]
          · intro c' hc' hc'sat
            fin_cases hc' <;>
              first
                | (exact absurd hc'sat h1)
                | (exact absurd hc'sat h2)
                | (exact absurd hc'sat h3)
                | norm_num
        · refine ⟨(⌊x⌋ : ℚ) + 1 + 29/100, ?_, by linarith,
            ⟨⌊x⌋ + 1, 29/100, by simp [cents], by push_cast; ring⟩,
            Or.inr ⟨?_, rfl⟩⟩
          · simp only [retail_round, cents]
            rw [List.find?_cons_of_neg _ (by simpa using h1),
              List.find?_cons_of_neg _ (by simpa using h2),
              List.find?_cons_of_neg _ (by simpa using h3),
              List.find?_cons_of_neg _ (by simpa using h4)]
            simp only [List.find?_nil]
            have h6 : ((⌊x⌋ : ℚ) + 1 + 29/100) = (⌊x⌋ : ℚ) + (129 : ℚ) / 100 := by ring
            have h7 := hcent 129
            norm_num at h7 ⊢
            rw [h6, h7]
          · intro c hc
            fin_cases hc <;> assumption

set_option maxRecDepth 100000 in
/-- Claim C2, counterexample to the unamended claim: at the concrete input
`10.29 + 1e-10` (inside the epsilon tolerance above the `.29` ending) the
rounder returns `10.29`, which is strictly below the input — so the stated
guarantee that the output is always `≥` the input is false. -/
theorem C2_counterexample :
    retail_round (some (1029/100 + 1/10^10)) = some (1029/100) ∧
      (1029/100 : ℚ) < 1029/100 + 1/10^10 :=
  ⟨of_decide_eq_true (by with_unfolding_all rfl), by norm_num⟩

/-- Claim C2, witness: the amended theorem applied at the concrete input
`10`. -/
theorem C2_witness : ∃ r : ℚ, retail_round (some 10) = some r ∧ 10 - rrEps ≤ r :=
  have h := C2_retail_round_amended 10
  ⟨h.choose, h.choose_spec.1, h.choose_spec.2.1⟩

/-! ## Helper lemmas: size / unit extraction -/

/-- A word that lowercases to `"each"` cannot match the digits-then-letters
pattern (its first character is not a digit). -/
theorem matchNumUnit_each {w : String} (h : pyLower w = "each") : matchNumUnit w = none := by
  have hdata : w.data.map Char.toLower = ['e', 'a', 'c', 'h'] := by
    have h2 := congrArg String.data h
    simpa [pyLower] using h2
  cases hw : w.data with
  | nil => rw [hw] at hdata; exact absurd hdata (by decide)
  | cons c cs =>
    rw [hw] at hdata
    simp only [List.map_cons, List.cons.injEq] at hdata
    have hdig : c.isDigit = false := isDigit_false_of_toLower_eq_e hdata.1
    unfold matchNumUnit
    rw [hw, List.takeWhile_cons_of_neg (by simp [hdig])]
    simp

/-- Claim C5: the extractor implements the spec's three rules in order —
rule 1 (strip `<num><unit> each`), else rule 2 (strip a trailing
`<num><unit>`), else the unchanged-default — with rule 1 taking precedence;
stated as extensional equality between the code's reversed-word-list
implementation and the spec-worded `extractSpec`, plus the spec's
`"Chips 50g each"` example. -/
theorem C5_extract_rules :
    (∀ name : Option String, extract_size_and_unit name = extractSpec name) ∧
      extract_size_and_unit (some "Chips 50g each") = (some "Chips", 50, "g") := by
  constructor
  · intro name
    cases name with
    | none => rfl
    | some n =>
      cases hr : (pySplit n).reverse with
      | nil =>
        have hws : pySplit n = [] := by
          rw [← List.reverse_reverse (pySplit n), hr]
          rfl
        simp [extract_size_and_unit, extractSpec, hr, hws, ruleEachStrip, ruleLastStrip]
      | cons last restRev =>
        have hws : pySplit n = restRev.reverse ++ [last] := by
          rw [← List.reverse_reverse (pySplit n), hr, List.reverse_cons]
        have hlast : (pySplit n).getLast? = some last := by
          rw [hws]
          exact List.getLast?_concat _
        have hdrop : (pySplit n).dropLast = restRev.reverse := by
          rw [hws]
          exact List.dropLast_concat
        by_cases hlow : pyLower last = "each"
        · have hmN : matchNumUnit last = none := matchNumUnit_each hlow
          cases restRev with
          | nil =>
            have hlen : (pySplit n).length = 1 := by rw [hws]; rfl
            simp [extract_size_and_unit, extractSpec, hr, hlow, hmN,
              ruleEachStrip, ruleLastStrip, hlast, hlen]
          | cons t rest2Rev =>
            have hlen : 2 ≤ (pySplit n).length := by
              rw [hws]
              simp
            have hdrop2 : (pySplit n).dropLast.getLast? = some t := by
              rw [hdrop, List.reverse_cons]
              exact List.getLast?_concat _
            have hdrop3 : (pySplit n).dropLast.dropLast = rest2Rev.reverse := by
              rw [hdrop, List.reverse_cons]
              exact List.dropLast_concat
            cases hm : matchNumUnit t with
            | none =>
              simp [extract_size_and_unit, extractSpec, hr, hlow, hm, hmN,
                ruleEachStrip, ruleLastStrip, hlast, hlen, hdrop2]
            | some p =>
              by_cases hin : pyLower p.2 ∈ allowedUnits
              · simp [extract_size_and_unit, extractSpec, hr, hlow, hm, hmN,
                  ruleEachStrip, ruleLastStrip, hlast, hlen, hdrop2, hdrop3, hin]
              · simp [extract_size_and_unit, extractSpec, hr, hlow, hm, hmN,
                  ruleEachStrip, ruleLastStrip, hlast, hlen, hdrop2, hdrop3, hin]
        · cases hm : matchNumUnit last with
          | none =>
            simp [extract_size_and_unit, extractSpec, hr, hlow, hm,
              ruleEachStrip, ruleLastStrip, hlast]
          | some p =>
            by_cases hin : pyLower p.2 ∈ allowedUnits
            · simp [extract_size_and_unit, extractSpec, hr, hlow, hm,
                ruleEachStrip, ruleLastStrip, hlast, hdrop, hin]
            · simp [extract_size_and_unit, extractSpec, hr, hlow, hm,
                ruleEachStrip, ruleLastStrip, hlast, hdrop, hin]
  · decide

end Reinv
